import Mathlib

/-!
Verification development for the aurae cell-service subsystem.

The registry (`Cells`), the path router of `CellService`, the `do_in_cell`
retry/backoff skeleton and the request validators are embedded as executable
Lean functions.  External collaborators that are not part of the sources
(the `Cell` state machine's side effects, the cgroup filesystem, the backoff
crate, the RPC transport) appear as explicit oracle parameters or are
modelled from the specification, as indicated by doc comments.
-/

deriving instance DecidableEq for Except

set_option synthInstance.maxHeartbeats 1000000
set_option maxHeartbeats 1000000

namespace Aurae

/-- Cell names are byte-exact identifiers; modelled as lists of characters. -/
abbrev CellName := List Char

/-- Error taxonomy of the cells registry, from the variants used in
`cells.rs` and the resource-construction errors of the specification. -/
inductive CellsError
  | CellExists (cell_name : CellName)
  | CgroupIsNotACell (cell_name : CellName)
  | CellNotFound (cell_name : CellName)
  | CgroupNotFound (cell_name : CellName)
  | CellNotAllocated (cell_name : CellName)
  | CgroupCreateFailed (cell_name : CellName)
  | ControllerWriteFailed (cell_name : CellName)
  | IsolationFailed (cell_name : CellName)
  deriving DecidableEq, Repr

/-- Cpu controller settings (weight, max), from `validation.rs`. -/
structure CpuController where
  weight : Option Nat
  max : Option Int
  deriving DecidableEq, Repr

/-- Cpuset controller settings (cpus, mems mask strings), from `validation.rs`. -/
structure CpusetController where
  cpus : Option (List Char)
  mems : Option (List Char)
  deriving DecidableEq, Repr

/-- Cgroup spec: optional cpu and cpuset controllers, from `validation.rs`. -/
structure CgroupSpec where
  cpu : Option CpuController
  cpuset : Option CpusetController
  deriving DecidableEq, Repr

/-- Isolation flags, from `isolation_controls.rs`. -/
structure IsolationControls where
  isolate_process : Bool
  isolate_network : Bool
  deriving DecidableEq, Repr

/-- Cell spec, from `cells/mod.rs`. -/
structure CellSpec where
  cgroup_spec : CgroupSpec
  iso_ctl : IsolationControls
  deriving DecidableEq, Repr

/-- Modelled from the spec: the `Cell` state machine of section 4.3
(`cell.rs` is not among the sources).  States Unallocated, Allocated, Freed. -/
inductive CellState
  | Unallocated
  | Allocated
  | Freed
  deriving DecidableEq, Repr

/-- Modelled from the spec: a `Cell` owns a name, a spec and a state
(`cell.rs` is not among the sources).  The name is immutable. -/
structure Cell where
  name : CellName
  spec : CellSpec
  state : CellState
  deriving DecidableEq, Repr

/-- `Cell::new`: a fresh, unallocated cell. -/
def Cell.new (name : CellName) (spec : CellSpec) : Cell :=
  ⟨name, spec, .Unallocated⟩

/-- Modelled from the spec: the nested agent connection endpoint recorded by
`client_config` (a socket path derived from the cell name). -/
structure ClientConfig where
  socket : CellName
  deriving DecidableEq, Repr

/-- Modelled from the spec: `Cell::client_config` returns the endpoint in the
Allocated state and fails with `CellNotAllocated` in any other state. -/
def Cell.client_config (c : Cell) : Except CellsError ClientConfig :=
  if c.state = .Allocated then .ok ⟨c.name⟩ else .error (.CellNotAllocated c.name)

/-- An effectful `Cell` method (`Cell::allocate`, `Cell::free`, `Cell::kill`):
given the cell, it yields a result and the cell's new state.  `cell.rs` is not
among the sources, so these methods are kept as oracle parameters. -/
abbrev CellOp := Cell → Except CellsError Unit × CellState

/-- Applies a `Cell` method: the cell keeps its (immutable) name and spec and
takes the state the method leaves it in. -/
def applyCellOp (f : CellOp) (c : Cell) : Except CellsError Unit × Cell :=
  ((f c).1, { c with state := (f c).2 })

/-- The ground truth of `Cgroup::exists` (the cgroup filesystem is external
state; the registry treats it as an oracle). -/
abbrev FsExists := CellName → Bool

/-- The registry cache `HashMap<CellName, Cell>`, modelled as an association
list with unique keys. -/
abbrev Cache := List (CellName × Cell)

/-- `HashMap::contains_key`. -/
def containsKey (n : CellName) (l : Cache) : Bool :=
  l.any (fun p => p.1 == n)

/-- `HashMap::get`. -/
def lookupKey (n : CellName) (l : Cache) : Option Cell :=
  (l.find? (fun p => p.1 == n)).map Prod.snd

/-- `HashMap::remove`. -/
def removeKey (n : CellName) (l : Cache) : Cache :=
  l.filter (fun p => p.1 != n)

/-- `HashMap::insert` / the `entry` API's insertion: replaces the value under
an existing key, otherwise appends the binding. -/
def insertKey (n : CellName) (c : Cell) (l : Cache) : Cache :=
  if containsKey n l then
    l.map (fun p => if p.1 == n then (n, c) else p)
  else
    l ++ [(n, c)]

/-- The in-memory cache of cells, from `cells.rs`. -/
structure Cells where
  cache : Cache
  deriving DecidableEq, Repr

/-- `Cells::handle_cgroup_does_not_exist`, from `cells.rs`: reconciliation of
the cache against the cgroup filesystem. -/
def Cells.handle_cgroup_does_not_exist (ext : FsExists) (s : Cells)
    (cell_name : CellName) : Except CellsError Unit × Cells :=
  if ext cell_name then
    (.ok (), s)
  else if containsKey cell_name s.cache then
    (.error (.CgroupNotFound cell_name), ⟨removeKey cell_name s.cache⟩)
  else
    (.error (.CellNotFound cell_name), s)

/-- `Cells::allocate`, from `cells.rs`. -/
def Cells.allocate (ext : FsExists) (cellAllocate : CellOp) (s : Cells)
    (cell_name : CellName) (cell_spec : CellSpec) : Except CellsError Cell × Cells :=
  if ext cell_name then
    if containsKey cell_name s.cache then
      (.error (.CellExists cell_name), s)
    else
      (.error (.CgroupIsNotACell cell_name), s)
  else
    let cache1 := removeKey cell_name s.cache
    let cell0 := match lookupKey cell_name cache1 with
      | some c => c
      | none => Cell.new cell_name cell_spec
    let r := applyCellOp cellAllocate cell0
    let cache2 := insertKey cell_name r.2 cache1
    match r.1 with
    | .error e => (.error e, ⟨cache2⟩)
    | .ok _ => (.ok r.2, ⟨cache2⟩)

/-- `Cells::get`, from `cells.rs`: reconcile, read the cell, evict on
`CellNotAllocated`. -/
def Cells.get {ρ : Type} (ext : FsExists) (s : Cells) (cell_name : CellName)
    (f : Cell → Except CellsError ρ) : Except CellsError ρ × Cells :=
  match Cells.handle_cgroup_does_not_exist ext s cell_name with
  | (.error e, s1) => (.error e, s1)
  | (.ok _, s1) =>
    match lookupKey cell_name s1.cache with
    | none => (.error (.CgroupIsNotACell cell_name), s1)
    | some cell =>
      match f cell with
      | .error (.CellNotAllocated m) =>
          (.error (.CellNotAllocated m), ⟨removeKey cell_name s1.cache⟩)
      | r => (r, s1)

/-- `Cells::get_mut`, from `cells.rs`: like `get` but the callback mutates the
cell, whose new value is kept in the cache unless the entry is evicted. -/
def Cells.get_mut {ρ : Type} (ext : FsExists) (s : Cells) (cell_name : CellName)
    (f : Cell → Except CellsError ρ × Cell) : Except CellsError ρ × Cells :=
  match Cells.handle_cgroup_does_not_exist ext s cell_name with
  | (.error e, s1) => (.error e, s1)
  | (.ok _, s1) =>
    match lookupKey cell_name s1.cache with
    | none => (.error (.CgroupIsNotACell cell_name), s1)
    | some cell =>
      let r := f cell
      match r.1 with
      | .error (.CellNotAllocated m) =>
          (.error (.CellNotAllocated m), ⟨removeKey cell_name s1.cache⟩)
      | res => (res, ⟨insertKey cell_name r.2 s1.cache⟩)

/-- `Cells::free`, from `cells.rs`: reconcile, delegate to `Cell::free` via
`get_mut`, then remove the entry. -/
def Cells.free (ext : FsExists) (cellFree : CellOp) (s : Cells)
    (cell_name : CellName) : Except CellsError Unit × Cells :=
  match Cells.handle_cgroup_does_not_exist ext s cell_name with
  | (.error e, s1) => (.error e, s1)
  | (.ok _, s1) =>
    match Cells.get_mut ext s1 cell_name (applyCellOp cellFree) with
    | (.error e, s2) => (.error e, s2)
    | (.ok _, s2) => (.ok (), ⟨removeKey cell_name s2.cache⟩)

/-- `Cells::do_broadcast`, from `cells.rs`: apply the method to every cached
cell, keep every mutated cell in the cache, and report the names of the cells
whose method call succeeded. -/
def Cells.do_broadcast (f : CellOp) (s : Cells) : List CellName × Cells :=
  (s.cache.filterMap (fun p => match (applyCellOp f p.2).1 with
      | .ok _ => some (applyCellOp f p.2).2.name
      | .error _ => none),
   ⟨s.cache.map (fun p => (p.1, (applyCellOp f p.2).2))⟩)

/-- `Cells::broadcast_free`, from `cells.rs`. -/
def Cells.broadcast_free (cellFree : CellOp) (s : Cells) : Cells :=
  let r := Cells.do_broadcast cellFree s
  ⟨r.1.foldl (fun acc n => removeKey n acc) r.2.cache⟩

/-- `Cells::broadcast_kill`, from `cells.rs`. -/
def Cells.broadcast_kill (cellKill : CellOp) (s : Cells) : Cells :=
  let r := Cells.do_broadcast cellKill s
  ⟨r.1.foldl (fun acc n => removeKey n acc) r.2.cache⟩

/-- A sample cell spec with no controllers and no isolation. -/
def specNone : CellSpec := ⟨⟨none, none⟩, ⟨false, false⟩⟩

/-- A sample allocated cell named "a". -/
def cellAlpha : Cell := ⟨['a'], specNone, CellState.Allocated⟩

/-- `cell_name_path::SEPARATOR`, from `cell_service.rs` usage. -/
def SEPARATOR : Char := '/'

/-- Modelled from the spec: a cell name matches the pattern of a lowercase
letter or digit followed by lowercase letters, digits and dashes
(`cell_name.rs` is not among the sources). -/
def isCellNameStart (c : Char) : Bool :=
  (decide ('a' ≤ c) && decide (c ≤ 'z')) || (decide ('0' ≤ c) && decide (c ≤ '9'))

def isCellNameRest (c : Char) : Bool :=
  isCellNameStart c || (c == '-')

def isValidCellName : List Char → Bool
  | [] => false
  | c :: rest => isCellNameStart c && rest.all isCellNameRest

/-- Splitting a wire string on the separator, after Rust's `str::split`:
the empty string yields one empty segment, and each separator starts a new
segment. -/
def splitOnSep : List Char → List (List Char)
  | [] => [[]]
  | c :: rest =>
    if c = SEPARATOR then [] :: splitOnSep rest
    else
      match splitOnSep rest with
      | [] => [[c]]
      | s :: tl => (c :: s) :: tl

/-- Modelled from the spec: `CellNamePath` is either the empty path or an
ordered non-empty sequence of cell-name segments
(`cell_name_path.rs` is not among the sources). -/
inductive CellNamePath
  | Empty
  | Path (segments : List CellName)
  deriving DecidableEq, Repr

/-- Modelled from the spec: parsing/validation of a wire cell path.  The empty
string denotes the empty path; otherwise every `/`-separated segment must be a
valid cell name, which also forbids leading, trailing or doubled separators. -/
def CellNamePath.validate (s : List Char) : Option CellNamePath :=
  if s = [] then some .Empty
  else if (splitOnSep s).all isValidCellName then some (.Path (splitOnSep s))
  else none

/-- Modelled from the spec: `into_child` splits off the head segment, leaving
the tail path (empty for a single-segment path); it fails on the empty path. -/
def CellNamePath.into_child : CellNamePath → Option (CellName × CellNamePath)
  | .Empty => none
  | .Path [] => none
  | .Path [n] => some (n, .Empty)
  | .Path (n :: rest) => some (n, .Path rest)

/-- Modelled from the spec: `into_string` rejoins the segments with the
separator; the empty path becomes the empty string. -/
def CellNamePath.into_string : CellNamePath → List Char
  | .Empty => []
  | .Path segs => List.intercalate [SEPARATOR] segs

/-- Wire `CpuController`, from `aurae_proto` usage in `validation.rs`. -/
structure WireCpuController where
  weight : Option Nat
  max : Option Int
  deriving DecidableEq, Repr

/-- Wire `Cell` message, from `aurae_proto` usage in `validation.rs`. -/
structure WireCell where
  name : List Char
  cpu : Option WireCpuController
  cpuset : Option CpusetController
  isolate_process : Bool
  isolate_network : Bool
  deriving DecidableEq, Repr

/-- Wire `CellServiceAllocateRequest`. -/
structure CellServiceAllocateRequest where
  cell : Option WireCell
  deriving DecidableEq, Repr

/-- Wire `CellServiceFreeRequest`. -/
structure CellServiceFreeRequest where
  cell_name : List Char
  deriving DecidableEq, Repr

/-- Wire `Executable` message. -/
structure WireExecutable where
  name : List Char
  command : List Char
  description : List Char
  deriving DecidableEq, Repr

/-- Wire `CellServiceStartRequest`. -/
structure CellServiceStartRequest where
  cell_name : List Char
  executable : Option WireExecutable
  deriving DecidableEq, Repr

/-- Wire `CellServiceStopRequest`. -/
structure CellServiceStopRequest where
  cell_name : List Char
  executable_name : List Char
  deriving DecidableEq, Repr

/-- Validated cell, from `validation.rs`. -/
structure ValidatedCell where
  name : CellNamePath
  cpu : Option CpuController
  cpuset : Option CpusetController
  isolate_process : Bool
  isolate_network : Bool
  deriving DecidableEq, Repr

structure ValidatedCellServiceAllocateRequest where
  cell : ValidatedCell
  deriving DecidableEq, Repr

structure ValidatedCellServiceFreeRequest where
  cell_name : CellNamePath
  deriving DecidableEq, Repr

structure ValidatedExecutable where
  name : List Char
  command : List Char
  description : List Char
  deriving DecidableEq, Repr

structure ValidatedCellServiceStartRequest where
  cell_name : CellNamePath
  executable : ValidatedExecutable
  deriving DecidableEq, Repr

structure ValidatedCellServiceStopRequest where
  cell_name : CellNamePath
  executable_name : List Char
  deriving DecidableEq, Repr

/-- Modelled from the spec: a cpu weight is valid when within `[1, 10000]`
(the `Weight` newtype is not among the sources). -/
def validateWeight (w : Option Nat) : Option (Option Nat) :=
  match w with
  | none => some none
  | some v => if 1 ≤ v ∧ v ≤ 10000 then some (some v) else none

def validateCpu (c : Option WireCpuController) : Option (Option CpuController) :=
  match c with
  | none => some none
  | some cc => (validateWeight cc.weight).map (fun w => some ⟨w, cc.max⟩)

/-- `CellValidator::validate_name` and the per-field validation of
`ValidatedCell`, from `validation.rs`: the name must parse and must not be the
empty path. -/
def validateCell (c : WireCell) : Option ValidatedCell :=
  match CellNamePath.validate c.name with
  | none => none
  | some .Empty => none
  | some name =>
    match validateCpu c.cpu with
    | none => none
    | some cpu => some ⟨name, cpu, c.cpuset, c.isolate_process, c.isolate_network⟩

/-- `ValidatedCellServiceAllocateRequest::validate`: the cell is required. -/
def CellServiceAllocateRequest.validate (r : CellServiceAllocateRequest) :
    Option ValidatedCellServiceAllocateRequest :=
  match r.cell with
  | none => none
  | some c => (validateCell c).map (fun v => ⟨v⟩)

/-- `ValidatedCellServiceFreeRequest::validate`: a non-empty cell path. -/
def CellServiceFreeRequest.validate (r : CellServiceFreeRequest) :
    Option ValidatedCellServiceFreeRequest :=
  match CellNamePath.validate r.cell_name with
  | none => none
  | some .Empty => none
  | some p => some ⟨p⟩

/-- Modelled from the spec: the executable requires a non-empty name and a
non-empty command (the `ExecutableName` newtype is not among the sources). -/
def validateExecutable (e : WireExecutable) : Option ValidatedExecutable :=
  if e.name = [] then none
  else if e.command = [] then none
  else some ⟨e.name, e.command, e.description⟩

/-- `ValidatedCellServiceStartRequest::validate`: the cell path may be empty;
the executable is required. -/
def CellServiceStartRequest.validate (r : CellServiceStartRequest) :
    Option ValidatedCellServiceStartRequest :=
  match CellNamePath.validate r.cell_name with
  | none => none
  | some p =>
    match r.executable with
    | none => none
    | some e => (validateExecutable e).map (fun v => ⟨p, v⟩)

/-- `ValidatedCellServiceStopRequest::validate`: the cell path may be empty;
the executable name must be non-empty. -/
def CellServiceStopRequest.validate (r : CellServiceStopRequest) :
    Option ValidatedCellServiceStopRequest :=
  match CellNamePath.validate r.cell_name with
  | none => none
  | some p => if r.executable_name = [] then none else some ⟨p, r.executable_name⟩

/-- The routing outcome of a server method: handled by the local agent,
forwarded to the nested agent owning the head segment (with the rewritten
outbound request), rejected by validation, or a panic of the handler. -/
inductive Dispatch (α β : Type)
  | handledLocally (v : α)
  | forwarded (parent : CellName) (outbound : β)
  | invalidArgument
  | panicked
  deriving DecidableEq, Repr

/-- The routing layer of `CellService::allocate` (server impl), from
`cell_service.rs` lines 275-313: local iff the request has a cell whose name
contains no separator; otherwise validate, split off the head segment and
forward the request with the name rewritten to the tail. -/
def CellService.route_allocate (r : CellServiceAllocateRequest) :
    Dispatch ValidatedCellServiceAllocateRequest CellServiceAllocateRequest :=
  if (match r.cell with
      | some c => !(c.name.contains SEPARATOR)
      | none => false) then
    match r.validate with
    | some v => .handledLocally v
    | none => .invalidArgument
  else
    match r.validate with
    | none => .invalidArgument
    | some v =>
      match v.cell.name.into_child with
      | none => .panicked
      | some (parent, tail) =>
        match r.cell with
        | none => .panicked
        | some c => .forwarded parent ⟨some { c with name := tail.into_string }⟩

/-- The routing layer of `CellService::free` (server impl), from
`cell_service.rs` lines 315-345. -/
def CellService.route_free (r : CellServiceFreeRequest) :
    Dispatch ValidatedCellServiceFreeRequest CellServiceFreeRequest :=
  if !(r.cell_name.contains SEPARATOR) then
    match r.validate with
    | some v => .handledLocally v
    | none => .invalidArgument
  else
    match r.validate with
    | none => .invalidArgument
    | some v =>
      match v.cell_name.into_child with
      | none => .panicked
      | some (parent, tail) => .forwarded parent ⟨tail.into_string⟩

/-- The routing layer of `CellService::start` (server impl), from
`cell_service.rs` lines 347-376: local iff the cell name is empty. -/
def CellService.route_start (r : CellServiceStartRequest) :
    Dispatch ValidatedCellServiceStartRequest CellServiceStartRequest :=
  if r.cell_name = [] then
    match r.validate with
    | some v => .handledLocally v
    | none => .invalidArgument
  else
    match r.validate with
    | none => .invalidArgument
    | some v =>
      match v.cell_name.into_child with
      | none => .panicked
      | some (parent, tail) => .forwarded parent ⟨tail.into_string, r.executable⟩

/-- The routing layer of `CellService::stop` (server impl), from
`cell_service.rs` lines 378-408. -/
def CellService.route_stop (r : CellServiceStopRequest) :
    Dispatch ValidatedCellServiceStopRequest CellServiceStopRequest :=
  if r.cell_name = [] then
    match r.validate with
    | some v => .handledLocally v
    | none => .invalidArgument
  else
    match r.validate with
    | none => .invalidArgument
    | some v =>
      match v.cell_name.into_child with
      | none => .panicked
      | some (parent, tail) => .forwarded parent ⟨tail.into_string, r.executable_name⟩

/-- Backoff parameters in milliseconds, from the builder call in
`cell_service.rs` (initial 50 ms, multiplier 10, randomisation one half, max
interval 3 s, max total elapsed 20 s). -/
def initialIntervalMs : Nat := 50

def maxIntervalMs : Nat := 3000

def maxElapsedMs : Nat := 20000

/-- Modelled from the spec: the state of the exponential backoff strategy (the
backoff crate is not among the sources).  The current interval never drops
below the initial interval. -/
structure BackoffState where
  currentInterval : Nat
  elapsedMs : Nat
  interval_lb : initialIntervalMs ≤ currentInterval

def backoffInit : BackoffState := ⟨initialIntervalMs, 0, Nat.le_refl _⟩

/-- Modelled from the spec: the randomised delay deviates from the current
interval by at most half of it, the choice `rand` being external. -/
def backoffDelay (b : BackoffState) (rand : Nat) : Nat :=
  b.currentInterval / 2 + min rand b.currentInterval

/-- Modelled from the spec: `next_backoff` grants a randomised delay while the
total elapsed time stays within the 20 s budget, growing the interval tenfold
up to the 3 s cap, and yields none once the budget is exhausted. -/
def backoffStep (b : BackoffState) (rand : Nat) : Option (Nat × BackoffState) :=
  if b.elapsedMs + backoffDelay b rand ≤ maxElapsedMs then
    some (backoffDelay b rand,
      ⟨min (b.currentInterval * 10) maxIntervalMs,
       b.elapsedMs + backoffDelay b rand, by
        have h := b.interval_lb
        have h1 : initialIntervalMs ≤ b.currentInterval * 10 := by omega
        have h2 : initialIntervalMs ≤ maxIntervalMs := by decide
        exact le_min h1 h2⟩)
  else none

/-- The outcome of one `AuraeClient::new` dial attempt: success, a
`ConnectionError`, or any other client error. -/
inductive DialResult
  | ok
  | connectionError
  | otherError
  deriving DecidableEq, Repr

/-- The running state of the dial loop of `do_in_cell`. -/
structure DialState where
  backoff : BackoffState
  attempt : Nat
  sleptMs : Nat

/-- What the dial loop of `do_in_cell` ends with.  `outOfFuel` marks fuel
exhaustion of the embedding, proved unreachable below. -/
inductive DialOutcome
  | connected (s : DialState)
  | fatalError (s : DialState)
  | budgetExhausted (s : DialState)
  | outOfFuel (s : DialState)

def DialOutcome.state : DialOutcome → DialState
  | .connected s => s
  | .fatalError s => s
  | .budgetExhausted s => s
  | .outOfFuel s => s

def DialOutcome.isOutOfFuel : DialOutcome → Bool
  | .outOfFuel _ => true
  | _ => false

/-- The dial loop of the `do_in_cell` macro, from `cell_service.rs` lines
74-88: retry with backoff only on `ConnectionError`; any other error breaks
the loop at once; when the strategy grants no more delay return the error.
The dial results and randomisation choices are external streams. -/
def dialLoop (dials : Nat → DialResult) (rands : Nat → Nat) :
    Nat → DialState → DialOutcome
  | 0, s => .outOfFuel s
  | fuel + 1, s =>
    match dials s.attempt with
    | .ok => .connected s
    | .otherError => .fatalError s
    | .connectionError =>
      match backoffStep s.backoff (rands s.attempt) with
      | none => .budgetExhausted s
      | some (d, b1) => dialLoop dials rands fuel ⟨b1, s.attempt + 1, s.sleptMs + d⟩

/-- Status codes of the RPC layer (the relevant one is `unknown`). -/
inductive RpcCode
  | unknown
  | invalidArgument
  | notFound
  | unavailable
  | internalError
  deriving DecidableEq, Repr

/-- An RPC error status: a code together with a message. -/
structure RpcError where
  code : RpcCode
  message : List Char
  deriving DecidableEq, Repr

def transportErrorMessage : List Char :=
  ['t', 'r', 'a', 'n', 's', 'p', 'o', 'r', 't', ' ', 'e', 'r', 'r', 'o', 'r']

/-- The outcome of one forwarded RPC attempt. -/
inductive RpcAttemptResult (σ : Type)
  | ok (v : σ)
  | err (e : RpcError)

/-- The running state of the response retry loop of `do_in_cell`. -/
structure RetryState where
  backoff : BackoffState
  attempt : Nat
  sleptMs : Nat

/-- What the response retry loop ends with. -/
inductive RpcOutcome (σ : Type)
  | success (v : σ) (s : RetryState)
  | permanentError (e : RpcError) (s : RetryState)
  | budgetExhausted (e : RpcError) (s : RetryState)
  | outOfFuel (s : RetryState)

def RpcOutcome.state {σ : Type} : RpcOutcome σ → RetryState
  | .success _ s => s
  | .permanentError _ s => s
  | .budgetExhausted _ s => s
  | .outOfFuel s => s

def RpcOutcome.isOutOfFuel {σ : Type} : RpcOutcome σ → Bool
  | .outOfFuel _ => true
  | _ => false

/-- The response retry of the `do_in_cell` macro, from `cell_service.rs` lines
90-102: an error whose code is `Unknown` with message "transport error" is
transient and retried under the remaining backoff budget; every other error is
permanent and returned unchanged. -/
def rpcRetry {σ : Type} (calls : Nat → RpcAttemptResult σ) (rands : Nat → Nat) :
    Nat → RetryState → RpcOutcome σ
  | 0, s => .outOfFuel s
  | fuel + 1, s =>
    match calls s.attempt with
    | .ok v => .success v s
    | .err e =>
      if e.code = RpcCode.unknown ∧ e.message = transportErrorMessage then
        match backoffStep s.backoff (rands s.attempt) with
        | none => .budgetExhausted e s
        | some (d, b1) => rpcRetry calls rands fuel ⟨b1, s.attempt + 1, s.sleptMs + d⟩
      else .permanentError e s

/-- Fuel sufficient for the retry loops: every granted delay is at least 25 ms
against a 20 s budget, so 801 iterations can never be exhausted. -/
def dialFuel : Nat := 801

/-- The external nondeterminism of one nested dispatch: the dial outcomes, the
forwarded-RPC outcomes and the randomisation choices of both loops. -/
structure NestedEnv (σ : Type) where
  dials : Nat → DialResult
  dialRands : Nat → Nat
  calls : Nat → RpcAttemptResult σ
  rpcRands : Nat → Nat

/-- The result of a nested dispatch. -/
inductive NestedResult (σ : Type)
  | ok (v : σ)
  | cellsError (e : CellsError)
  | dialFatal
  | dialBudgetExhausted
  | rpcPermanent (e : RpcError)
  | rpcBudgetExhausted (e : RpcError)
  | outOfFuel

/-- The observable outcome of `do_in_cell`: the result, the total time slept
in backoff, and the registry as left behind by the `client_config` read. -/
structure NestedCall (σ : Type) where
  result : NestedResult σ
  sleptMs : Nat
  cells : Cells

/-- The `do_in_cell` macro, from `cell_service.rs` lines 58-105: read the
client config from the registry via `Cells::get`, dial with backoff, then
issue the forwarded RPC under the same backoff budget. -/
def do_in_cell {σ : Type} (ext : FsExists) (env : NestedEnv σ) (cells : Cells)
    (cell_name : CellName) : NestedCall σ :=
  match Cells.get ext cells cell_name Cell.client_config with
  | (.error e, cells1) => ⟨.cellsError e, 0, cells1⟩
  | (.ok _, cells1) =>
    match dialLoop env.dials env.dialRands dialFuel ⟨backoffInit, 0, 0⟩ with
    | .fatalError s => ⟨.dialFatal, s.sleptMs, cells1⟩
    | .budgetExhausted s => ⟨.dialBudgetExhausted, s.sleptMs, cells1⟩
    | .outOfFuel s => ⟨.outOfFuel, s.sleptMs, cells1⟩
    | .connected s =>
      match rpcRetry env.calls env.rpcRands dialFuel ⟨s.backoff, 0, s.sleptMs⟩ with
      | .success v s1 => ⟨.ok v, s1.sleptMs, cells1⟩
      | .permanentError e s1 => ⟨.rpcPermanent e, s1.sleptMs, cells1⟩
      | .budgetExhausted e s1 => ⟨.rpcBudgetExhausted e, s1.sleptMs, cells1⟩
      | .outOfFuel s1 => ⟨.outOfFuel, s1.sleptMs, cells1⟩

/-- The events of one nested dispatch, in program order: the registry mutex
operations, the `client_config` read, dial attempts, backoff sleeps and
forwarded RPC attempts. -/
inductive Event
  | lockRegistry
  | readConfig
  | dialAttempt
  | sleep
  | rpcAttempt
  | unlockRegistry
  deriving DecidableEq, Repr

/-- The events emitted by the dial loop. -/
def dialTrace (dials : Nat → DialResult) (rands : Nat → Nat) :
    Nat → DialState → List Event
  | 0, _ => []
  | fuel + 1, s =>
    match dials s.attempt with
    | .ok => [.dialAttempt]
    | .otherError => [.dialAttempt]
    | .connectionError =>
      match backoffStep s.backoff (rands s.attempt) with
      | none => [.dialAttempt]
      | some (d, b1) =>
          .dialAttempt :: .sleep :: dialTrace dials rands fuel ⟨b1, s.attempt + 1, s.sleptMs + d⟩

/-- The events emitted by the response retry loop. -/
def rpcTrace {σ : Type} (calls : Nat → RpcAttemptResult σ) (rands : Nat → Nat) :
    Nat → RetryState → List Event
  | 0, _ => []
  | fuel + 1, s =>
    match calls s.attempt with
    | .ok _ => [.rpcAttempt]
    | .err e =>
      if e.code = RpcCode.unknown ∧ e.message = transportErrorMessage then
        match backoffStep s.backoff (rands s.attempt) with
        | none => [.rpcAttempt]
        | some (d, b1) =>
            .rpcAttempt :: .sleep :: rpcTrace calls rands fuel ⟨b1, s.attempt + 1, s.sleptMs + d⟩
      else [.rpcAttempt]

/-- The dial, sleep and RPC events of one nested dispatch, all of which happen
between the macro's lock of the registry mutex and the guard drop at the end
of its block. -/
def nested_work_trace {σ : Type} (ext : FsExists) (env : NestedEnv σ)
    (cells : Cells) (cell_name : CellName) : List Event :=
  match Cells.get ext cells cell_name Cell.client_config with
  | (.error _, _) => []
  | (.ok _, _) =>
    dialTrace env.dials env.dialRands dialFuel ⟨backoffInit, 0, 0⟩ ++
    (match dialLoop env.dials env.dialRands dialFuel ⟨backoffInit, 0, 0⟩ with
     | .connected s => rpcTrace env.calls env.rpcRands dialFuel ⟨s.backoff, 0, s.sleptMs⟩
     | _ => [])

/-- The full event trace of the `do_in_cell` macro: the registry mutex is
taken at entry, `client_config` is read under it, and the guard is dropped at
the end of the block, after the dial loop and the forwarded RPC. -/
def do_in_cell_trace {σ : Type} (ext : FsExists) (env : NestedEnv σ)
    (cells : Cells) (cell_name : CellName) : List Event :=
  [.lockRegistry, .readConfig] ++ nested_work_trace ext env cells cell_name ++
    [.unlockRegistry]

/-- Whether an event is part of the nested dispatch work done after the config
read: a dial attempt, a backoff sleep, or a forwarded RPC attempt. -/
def isNestedWorkEvent : Event → Bool
  | .dialAttempt => true
  | .sleep => true
  | .rpcAttempt => true
  | _ => false

/-- The property claimed of the trace: some release of the registry mutex
precedes every dial attempt, backoff sleep and forwarded RPC attempt. -/
def lockReleasedBeforeNestedWork : List Event → Bool
  | [] => true
  | .unlockRegistry :: _ => true
  | e :: rest => if isNestedWorkEvent e then false else lockReleasedBeforeNestedWork rest

/-- A sample environment where the dial and the forwarded RPC both succeed on
their first attempt. -/
def envAllOk : NestedEnv Unit :=
  ⟨fun _ => .ok, fun _ => 0, fun _ => .ok (), fun _ => 0⟩

theorem lookupKey_removeKey_self (n : CellName) (l : Cache) :
    lookupKey n (removeKey n l) = none := by
  simp only [lookupKey, Option.map_eq_none', List.find?_eq_none, removeKey,
    List.mem_filter]
  intro p hp
  simpa using hp.2

theorem containsKey_insertKey_self (n : CellName) (c : Cell) (l : Cache) :
    containsKey n (insertKey n c l) = true := by
  unfold insertKey
  split
  · rename_i hcond
    simp only [containsKey, List.any_eq_true] at hcond ⊢
    obtain ⟨p, hp, hpn⟩ := hcond
    exact ⟨(n, c), List.mem_map.mpr ⟨p, hp, by simp [hpn]⟩, by simp⟩
  · simp [containsKey, List.any_append]

/-- Claim C1: if the cgroup for a cell name exists on the filesystem, then
`Cells::allocate` fails without mutating the registry, returning `CellExists`
when the cache also holds the key and `CgroupIsNotACell` when it does not. -/
theorem claim_C1_allocate_foreign_cgroup (ext : FsExists) (cellAllocate : CellOp)
    (s : Cells) (cell_name : CellName) (cell_spec : CellSpec)
    (hext : ext cell_name = true) :
    (Cells.allocate ext cellAllocate s cell_name cell_spec).2 = s ∧
    (containsKey cell_name s.cache = true →
      (Cells.allocate ext cellAllocate s cell_name cell_spec).1 =
        .error (.CellExists cell_name)) ∧
    (containsKey cell_name s.cache = false →
      (Cells.allocate ext cellAllocate s cell_name cell_spec).1 =
        .error (.CgroupIsNotACell cell_name)) := by
  by_cases hc : containsKey cell_name s.cache
  · refine ⟨by simp [Cells.allocate, hext, hc], fun _ => by simp [Cells.allocate, hext, hc],
      fun hfalse => ?_⟩
    rw [hc] at hfalse
    exact absurd hfalse (by simp)
  · refine ⟨by simp [Cells.allocate, hext, hc], fun htrue => absurd htrue hc,
      fun _ => by simp [Cells.allocate, hext, hc]⟩

/-- Witness for claim C1 at a concrete input. -/
theorem claim_C1_witness :
    ((fun (_ : CellName) => true) (['a'] : CellName) = true) ∧
    (Cells.allocate (fun _ => true) (fun c => (.ok (), c.state)) ⟨[]⟩ ['a'] specNone).2 = ⟨[]⟩ ∧
    (Cells.allocate (fun _ => true) (fun c => (.ok (), c.state)) ⟨[]⟩ ['a'] specNone).1 =
      .error (.CgroupIsNotACell ['a']) := by
  refine ⟨rfl, ?_, ?_⟩
  · exact (claim_C1_allocate_foreign_cgroup (fun _ => true) (fun c => (.ok (), c.state))
      ⟨[]⟩ ['a'] specNone rfl).1
  · exact (claim_C1_allocate_foreign_cgroup (fun _ => true) (fun c => (.ok (), c.state))
      ⟨[]⟩ ['a'] specNone rfl).2.2 (by decide)

/-- Claim C2: if the cgroup for a cell name does not exist, `Cells::free`
returns `CellNotFound` and leaves the registry unchanged when the cache has no
entry, and evicts the entry and returns `CgroupNotFound` when it has one. -/
theorem claim_C2_free_missing_cgroup (ext : FsExists) (cellFree : CellOp)
    (s : Cells) (cell_name : CellName) (hext : ext cell_name = false) :
    (containsKey cell_name s.cache = false →
      Cells.free ext cellFree s cell_name = (.error (.CellNotFound cell_name), s)) ∧
    (containsKey cell_name s.cache = true →
      Cells.free ext cellFree s cell_name =
        (.error (.CgroupNotFound cell_name), ⟨removeKey cell_name s.cache⟩)) := by
  constructor
  · intro hc
    simp [Cells.free, Cells.handle_cgroup_does_not_exist, hext, hc]
  · intro hc
    simp [Cells.free, Cells.handle_cgroup_does_not_exist, hext, hc]

/-- Witness for claim C2 at a concrete input. -/
theorem claim_C2_witness :
    ((fun (_ : CellName) => false) (['a'] : CellName) = false) ∧
    (containsKey ['a'] (Cells.cache ⟨[]⟩) = false) ∧
    Cells.free (fun _ => false) (fun c => (.ok (), c.state)) ⟨[]⟩ ['a'] =
      (.error (.CellNotFound ['a']), (⟨[]⟩ : Cells)) := by
  refine ⟨rfl, by decide, ?_⟩
  exact (claim_C2_free_missing_cgroup (fun _ => false) (fun c => (.ok (), c.state))
    ⟨[]⟩ ['a'] rfl).1 (by decide)

/-- Counterexample for claim C3: with no cgroup on disk and an empty registry,
an `allocate` whose `Cell::allocate` step fails still leaves the freshly
inserted entry in the cache, so the registry holds an entry for a name whose
allocation never succeeded. -/
theorem claim_C3_cex :
    (Cells.allocate (fun _ => false)
        (fun c => (.error (.CgroupCreateFailed c.name), c.state))
        ⟨[]⟩ ['a'] specNone).1 = .error (.CgroupCreateFailed ['a']) ∧
    containsKey ['a']
      (Cells.allocate (fun _ => false)
        (fun c => (.error (.CgroupCreateFailed c.name), c.state))
        ⟨[]⟩ ['a'] specNone).2.cache = true := by
  exact ⟨by decide, by decide⟩

/-- Claim C3 (amended): errors from the existence check leave the registry
unchanged, but an error from `Cell::allocate` propagates while the freshly
inserted cell remains in the cache under its name. -/
theorem claim_C3_allocate_error_keeps_entry (ext : FsExists) (op : CellOp)
    (s : Cells) (cell_name : CellName) (cell_spec : CellSpec) :
    (ext cell_name = true → (Cells.allocate ext op s cell_name cell_spec).2 = s) ∧
    (ext cell_name = false → ∀ e, (op (Cell.new cell_name cell_spec)).1 = .error e →
      (Cells.allocate ext op s cell_name cell_spec).1 = .error e ∧
      containsKey cell_name (Cells.allocate ext op s cell_name cell_spec).2.cache = true) := by
  constructor
  · intro hext
    by_cases hc : containsKey cell_name s.cache <;> simp [Cells.allocate, hext, hc]
  · intro hext e herr
    have hcell0 : lookupKey cell_name (removeKey cell_name s.cache) = none :=
      lookupKey_removeKey_self cell_name s.cache
    constructor
    · simp [Cells.allocate, hext, hcell0, applyCellOp, herr]
    · simp [Cells.allocate, hext, hcell0, applyCellOp, herr,
        containsKey_insertKey_self]

/-- Witness for the amended claim C3 at a concrete input. -/
theorem claim_C3_witness :
    ((fun (_ : CellName) => false) (['a'] : CellName) = false) ∧
    (((fun (c : Cell) => ((.error (.CgroupCreateFailed c.name) : Except CellsError Unit), c.state))
        (Cell.new ['a'] specNone)).1 = .error (.CgroupCreateFailed ['a'])) ∧
    (Cells.allocate (fun _ => false)
        (fun c => (.error (.CgroupCreateFailed c.name), c.state))
        ⟨[]⟩ ['a'] specNone).1 = .error (.CgroupCreateFailed ['a']) ∧
    containsKey ['a']
      (Cells.allocate (fun _ => false)
        (fun c => (.error (.CgroupCreateFailed c.name), c.state))
        ⟨[]⟩ ['a'] specNone).2.cache = true := by
  refine ⟨rfl, by decide, ?_⟩
  exact (claim_C3_allocate_error_keeps_entry (fun _ => false)
    (fun c => (.error (.CgroupCreateFailed c.name), c.state))
    ⟨[]⟩ ['a'] specNone).2 rfl (.CgroupCreateFailed ['a']) (by decide)

/-- The registry cache has no duplicate keys (the `HashMap` invariant). -/
def KeysNodup (l : Cache) : Prop := (l.map Prod.fst).Nodup

/-- Every cached cell is stored under its own name (the registry invariant
maintained by `Cells::allocate`). -/
def NamesMatch (l : Cache) : Prop := ∀ p ∈ l, p.2.name = p.1

theorem keys_nodup_inj {l : Cache} (h : KeysNodup l) {n : CellName} {a b : Cell}
    (ha : (n, a) ∈ l) (hb : (n, b) ∈ l) : a = b := by
  induction l with
  | nil => cases ha
  | cons p tl ih =>
    obtain ⟨hhead, htl⟩ := List.nodup_cons.mp h
    rcases List.mem_cons.mp ha with ha1 | ha2
    · rcases List.mem_cons.mp hb with hb1 | hb2
      · rw [← ha1] at hb1
        exact (Prod.ext_iff.mp hb1).2.symm
      · exfalso
        apply hhead
        have : p.1 = n := by rw [← ha1]
        rw [this]
        exact List.mem_map.mpr ⟨(n, b), hb2, rfl⟩
    · rcases List.mem_cons.mp hb with hb1 | hb2
      · exfalso
        apply hhead
        have : p.1 = n := by rw [← hb1]
        rw [this]
        exact List.mem_map.mpr ⟨(n, a), ha2, rfl⟩
      · exact ih htl ha2 hb2

theorem removeAll_eq_filter (names : List CellName) (l : Cache) :
    names.foldl (fun acc n => removeKey n acc) l =
      l.filter (fun p => !(names.contains p.1)) := by
  induction names generalizing l with
  | nil => simp
  | cons n ns ih =>
    simp only [List.foldl_cons]
    rw [ih]
    simp only [removeKey, List.filter_filter]
    congr 1
    funext p
    by_cases hpn : p.1 = n <;> by_cases hmem : p.1 ∈ ns <;>
      simp [List.contains_cons, bne, hpn, hmem]

theorem broadcast_free_mem (f : CellOp) (s : Cells)
    (hnd : KeysNodup s.cache) (hnm : NamesMatch s.cache) (n : CellName) :
    containsKey n (Cells.broadcast_free f s).cache = true ↔
      ∃ c, (n, c) ∈ s.cache ∧ ∃ e, (f c).1 = .error e := by
  simp only [Cells.broadcast_free, Cells.do_broadcast, removeAll_eq_filter]
  constructor
  · intro hck
    simp only [containsKey, List.any_eq_true] at hck
    obtain ⟨q, hq, hq1⟩ := hck
    obtain ⟨hqmem, hqpred⟩ := List.mem_filter.mp hq
    obtain ⟨p, hp, hgp⟩ := List.mem_map.mp hqmem
    have hq1' : q.1 = n := by simpa using hq1
    have hp1 : p.1 = n := by rw [← hq1', ← hgp]
    refine ⟨p.2, by rw [← hp1]; exact hp, ?_⟩
    cases herr : (f p.2).1 with
    | error e => exact ⟨e, rfl⟩
    | ok u =>
      exfalso
      have hmemfreed : n ∈ s.cache.filterMap (fun p => match (applyCellOp f p.2).1 with
          | .ok _ => some (applyCellOp f p.2).2.name
          | .error _ => none) := by
        refine List.mem_filterMap.mpr ⟨p, hp, ?_⟩
        simp only [applyCellOp, herr]
        rw [hnm p hp, hp1]
      have : (s.cache.filterMap (fun p => match (applyCellOp f p.2).1 with
          | .ok _ => some (applyCellOp f p.2).2.name
          | .error _ => none)).contains q.1 = true := by
        rw [hq1']
        exact List.elem_iff.mpr hmemfreed
      rw [this] at hqpred
      simp at hqpred
  · rintro ⟨c, hc, e, herr⟩
    simp only [containsKey, List.any_eq_true]
    refine ⟨(n, (applyCellOp f c).2), ?_, by simp⟩
    refine List.mem_filter.mpr ⟨List.mem_map.mpr ⟨(n, c), hc, rfl⟩, ?_⟩
    simp only [Bool.not_eq_true']
    cases hcontains : (s.cache.filterMap (fun p => match (applyCellOp f p.2).1 with
        | .ok _ => some (applyCellOp f p.2).2.name
        | .error _ => none)).contains (n, (applyCellOp f c).2).1 with
    | false => rfl
    | true =>
      exfalso
      have hmem := List.elem_iff.mp hcontains
      obtain ⟨p, hp, hmp⟩ := List.mem_filterMap.mp hmem
      cases hok : (f p.2).1 with
      | error e2 => simp [applyCellOp, hok] at hmp
      | ok u =>
        simp only [applyCellOp, hok] at hmp
        have hpname : p.2.name = n := by simpa using hmp
        have hp1 : p.1 = n := by rw [← hnm p hp, hpname]
        have hpc : p.2 = c := by
          refine keys_nodup_inj hnd ?_ hc
          rw [← hp1]
          exact hp
        rw [hpc, herr] at hok
        cases hok

theorem namesMatch_do_broadcast_cache (f : CellOp) (s : Cells)
    (hnm : NamesMatch s.cache) :
    NamesMatch (Cells.do_broadcast f s).2.cache := by
  intro q hq
  simp only [Cells.do_broadcast] at hq
  obtain ⟨p, hp, hgp⟩ := List.mem_map.mp hq
  rw [← hgp]
  simpa [applyCellOp] using hnm p hp

theorem namesMatch_filter {l : Cache} (hnm : NamesMatch l) (pr : CellName × Cell → Bool) :
    NamesMatch (l.filter pr) := by
  intro q hq
  exact hnm q (List.mem_filter.mp hq).1

theorem namesMatch_broadcast_free (f : CellOp) (s : Cells)
    (hnm : NamesMatch s.cache) :
    NamesMatch (Cells.broadcast_free f s).cache := by
  simp only [Cells.broadcast_free, removeAll_eq_filter]
  exact namesMatch_filter (namesMatch_do_broadcast_cache f s hnm) _

theorem broadcast_kill_empty_of_all_ok (k : CellOp) (t : Cells)
    (hnm : NamesMatch t.cache) (hok : ∀ c, (k c).1 = .ok ()) :
    (Cells.broadcast_kill k t).cache = [] := by
  simp only [Cells.broadcast_kill, Cells.do_broadcast, removeAll_eq_filter]
  rw [List.filter_eq_nil_iff]
  intro q hq
  obtain ⟨p, hp, hgp⟩ := List.mem_map.mp hq
  simp only [Bool.not_eq_true', Bool.not_eq_false]
  have hmemfreed : q.1 ∈ t.cache.filterMap (fun p => match (applyCellOp k p.2).1 with
      | .ok _ => some (applyCellOp k p.2).2.name
      | .error _ => none) := by
    refine List.mem_filterMap.mpr ⟨p, hp, ?_⟩
    simp only [applyCellOp, hok p.2]
    rw [hnm p hp, ← hgp]
  exact List.elem_iff.mpr hmemfreed

/-- Counterexample for claim C6: a cell whose `free` and `kill` both fail is
removed by neither broadcast, so `broadcast_free` followed by `broadcast_kill`
does not leave the registry empty for every pattern of per-cell errors. -/
theorem claim_C6_cex :
    (Cells.broadcast_kill (fun c => (.error (.IsolationFailed c.name), c.state))
      (Cells.broadcast_free (fun c => (.error (.IsolationFailed c.name), c.state))
        ⟨[(['a'], cellAlpha)]⟩)).cache ≠ [] := by
  decide

/-- Claim C6 (amended): each broadcast removes exactly the cells whose
`free`/`kill` call succeeded, swallowing individual failures; consequently
`broadcast_free` followed by `broadcast_kill` leaves the registry empty
whenever every cell's `kill` succeeds, while a cell failing both calls
remains cached. -/
theorem claim_C6_broadcasts (f k : CellOp) (s : Cells) :
    (KeysNodup s.cache → NamesMatch s.cache →
      ∀ n, containsKey n (Cells.broadcast_free f s).cache = true ↔
        ∃ c, (n, c) ∈ s.cache ∧ ∃ e, (f c).1 = .error e) ∧
    (KeysNodup s.cache → NamesMatch s.cache →
      ∀ n, containsKey n (Cells.broadcast_kill k s).cache = true ↔
        ∃ c, (n, c) ∈ s.cache ∧ ∃ e, (k c).1 = .error e) ∧
    (NamesMatch s.cache → (∀ c, (k c).1 = .ok ()) →
      (Cells.broadcast_kill k (Cells.broadcast_free f s)).cache = []) := by
  refine ⟨fun hnd hnm n => broadcast_free_mem f s hnd hnm n,
    fun hnd hnm n => broadcast_free_mem k s hnd hnm n,
    fun hnm hok => ?_⟩
  exact broadcast_kill_empty_of_all_ok k (Cells.broadcast_free f s)
    (namesMatch_broadcast_free f s hnm) hok

/-- Witness for the amended claim C6 at a concrete input. -/
theorem claim_C6_witness :
    NamesMatch [(['a'], cellAlpha)] ∧
    (∀ c : Cell, ((fun (_ : Cell) => ((.ok () : Except CellsError Unit), CellState.Freed)) c).1 = .ok ()) ∧
    (Cells.broadcast_kill (fun _ => (.ok (), CellState.Freed))
      (Cells.broadcast_free (fun c => (.error (.IsolationFailed c.name), c.state))
        ⟨[(['a'], cellAlpha)]⟩)).cache = [] := by
  have hnm : NamesMatch [(['a'], cellAlpha)] := by
    intro p hp
    rw [List.mem_singleton.mp hp]
    rfl
  refine ⟨hnm, fun _ => rfl, ?_⟩
  exact (claim_C6_broadcasts (fun c => (.error (.IsolationFailed c.name), c.state))
    (fun _ => (.ok (), CellState.Freed)) ⟨[(['a'], cellAlpha)]⟩).2.2 hnm (fun _ => rfl)

theorem splitOnSep_ne_nil (l : List Char) : splitOnSep l ≠ [] := by
  cases l with
  | nil => simp [splitOnSep]
  | cons c rest =>
    simp only [splitOnSep]
    split
    · simp
    · split <;> simp

theorem splitOnSep_no_sep {l : List Char} (h : SEPARATOR ∉ l) :
    splitOnSep l = [l] := by
  induction l with
  | nil => rfl
  | cons c rest ih =>
    have hc : ¬c = SEPARATOR := by
      intro hh
      exact h (hh ▸ List.mem_cons_self c rest)
    have hrest : SEPARATOR ∉ rest := fun hh => h (List.mem_cons_of_mem c hh)
    simp [splitOnSep, hc, ih hrest]

theorem contains_false_not_mem {l : List Char} {a : Char}
    (h : l.contains a = false) : a ∉ l := by
  intro hm
  have hc : l.contains a = true := List.elem_iff.mpr hm
  rw [hc] at h
  cases h

theorem contains_true_mem {l : List Char} {a : Char}
    (h : l.contains a = true) : a ∈ l :=
  List.elem_iff.mp h

theorem validate_single {s : List Char} {p : CellNamePath} (hne : s ≠ [])
    (hns : s.contains SEPARATOR = false)
    (hv : CellNamePath.validate s = some p) : p = .Path [s] := by
  have hsplit : splitOnSep s = [s] := splitOnSep_no_sep (contains_false_not_mem hns)
  unfold CellNamePath.validate at hv
  rw [if_neg hne, hsplit] at hv
  split at hv
  · exact (Option.some.inj hv).symm
  · exact Option.noConfusion hv

theorem validate_segments {s : List Char} {segs : List CellName}
    (h : CellNamePath.validate s = some (.Path segs)) :
    s ≠ [] ∧ segs = splitOnSep s ∧ segs ≠ [] := by
  unfold CellNamePath.validate at h
  by_cases hs : s = []
  · rw [if_pos hs] at h
    simp at h
  · rw [if_neg hs] at h
    split at h
    · have h2 := Option.some.inj h
      injection h2 with h3
      refine ⟨hs, h3.symm, ?_⟩
      rw [← h3]
      exact splitOnSep_ne_nil s
    · exact Option.noConfusion h

theorem into_child_cons (x : CellName) (xs : List CellName) :
    CellNamePath.into_child (.Path (x :: xs)) =
      some (x, if xs = [] then CellNamePath.Empty else .Path xs) := by
  cases xs with
  | nil => rfl
  | cons y tl => simp [CellNamePath.into_child]

theorem allocate_validate_cell {r : CellServiceAllocateRequest}
    {v : ValidatedCellServiceAllocateRequest} (h : r.validate = some v) :
    ∃ c, r.cell = some c ∧ validateCell c = some v.cell := by
  unfold CellServiceAllocateRequest.validate at h
  split at h
  · exact Option.noConfusion h
  · rename_i c hc
    simp only [Option.map_eq_some'] at h
    obtain ⟨vc, hvc, hveq⟩ := h
    subst hveq
    exact ⟨c, hc, hvc⟩

theorem validateCell_name {c : WireCell} {vc : ValidatedCell}
    (h : validateCell c = some vc) :
    CellNamePath.validate c.name = some vc.name ∧ vc.name ≠ .Empty := by
  unfold validateCell at h
  split at h
  · exact Option.noConfusion h
  · exact Option.noConfusion h
  · rename_i p hval
    split at h
    · exact Option.noConfusion h
    · rename_i cpu hcpu
      have h2 := Option.some.inj h
      subst h2
      exact ⟨hval, p⟩

theorem free_validate_name {r : CellServiceFreeRequest}
    {v : ValidatedCellServiceFreeRequest} (h : r.validate = some v) :
    CellNamePath.validate r.cell_name = some v.cell_name ∧ v.cell_name ≠ .Empty := by
  unfold CellServiceFreeRequest.validate at h
  split at h
  · exact Option.noConfusion h
  · exact Option.noConfusion h
  · rename_i p hval
    have h2 := Option.some.inj h
    subst h2
    exact ⟨hval, p⟩

theorem start_validate_name {r : CellServiceStartRequest}
    {v : ValidatedCellServiceStartRequest} (h : r.validate = some v) :
    CellNamePath.validate r.cell_name = some v.cell_name := by
  unfold CellServiceStartRequest.validate at h
  split at h
  · exact Option.noConfusion h
  · rename_i p hval
    split at h
    · exact Option.noConfusion h
    · rename_i e hexe
      cases hve : validateExecutable e with
      | none =>
        rw [hve] at h
        exact Option.noConfusion h
      | some ve =>
        rw [hve] at h
        simp only [Option.map_some'] at h
        have h2 := Option.some.inj h
        subst h2
        exact hval

theorem stop_validate_name {r : CellServiceStopRequest}
    {v : ValidatedCellServiceStopRequest} (h : r.validate = some v) :
    CellNamePath.validate r.cell_name = some v.cell_name := by
  unfold CellServiceStopRequest.validate at h
  split at h
  · exact Option.noConfusion h
  · rename_i p hval
    split at h
    · exact Option.noConfusion h
    · have h2 := Option.some.inj h
      subst h2
      exact hval

theorem validate_ne_empty {s : List Char} {p : CellNamePath} (hs : s ≠ [])
    (hval : CellNamePath.validate s = some p) : p ≠ .Empty := by
  intro hp
  subst hp
  unfold CellNamePath.validate at hval
  rw [if_neg hs] at hval
  split at hval
  · exact CellNamePath.noConfusion (Option.some.inj hval)
  · exact Option.noConfusion hval

theorem validate_nonempty_of_ne_empty {s : List Char} {p : CellNamePath}
    (hval : CellNamePath.validate s = some p) (hne : p ≠ .Empty) : s ≠ [] := by
  intro hs
  subst hs
  exact hne (Option.some.inj hval).symm

theorem into_child_total {s : List Char} {p : CellNamePath}
    (hval : CellNamePath.validate s = some p) (hne : p ≠ .Empty) :
    ∃ x tail, p.into_child = some (x, tail) := by
  cases hp : p with
  | Empty => exact absurd hp hne
  | Path segs =>
    rw [hp] at hval
    obtain ⟨-, -, hsegs⟩ := validate_segments hval
    cases segs with
    | nil => exact absurd rfl hsegs
    | cons x xs => exact ⟨x, _, into_child_cons x xs⟩

theorem contains_sep_of_multi {s : List Char} {segs : List CellName}
    (hval : CellNamePath.validate s = some (.Path segs)) (hlen : 2 ≤ segs.length) :
    s.contains SEPARATOR = true := by
  cases hb : s.contains SEPARATOR with
  | true => rfl
  | false =>
    exfalso
    obtain ⟨hs, hsegs, -⟩ := validate_segments hval
    have hsingle := validate_single hs hb hval
    injection hsingle with h3
    rw [h3] at hlen
    simp at hlen

theorem route_allocate_invalid {r : CellServiceAllocateRequest}
    (h : r.validate = none) :
    CellService.route_allocate r = .invalidArgument := by
  unfold CellService.route_allocate
  split <;> rw [h]

theorem route_allocate_local {r : CellServiceAllocateRequest} {c : WireCell}
    {v : ValidatedCellServiceAllocateRequest} (hc : r.cell = some c)
    (hns : c.name.contains SEPARATOR = false) (hval : r.validate = some v) :
    CellService.route_allocate r = .handledLocally v := by
  simp [CellService.route_allocate, hc, contains_false_not_mem hns, hval]

theorem route_allocate_forwarded {r : CellServiceAllocateRequest} {c : WireCell}
    {v : ValidatedCellServiceAllocateRequest} {x : CellName} {tail : CellNamePath}
    (hc : r.cell = some c) (hcontains : c.name.contains SEPARATOR = true)
    (hval : r.validate = some v) (hchild : v.cell.name.into_child = some (x, tail)) :
    CellService.route_allocate r =
      .forwarded x ⟨some { c with name := tail.into_string }⟩ := by
  simp [CellService.route_allocate, hc, contains_true_mem hcontains, hval, hchild]

theorem route_free_invalid {r : CellServiceFreeRequest} (h : r.validate = none) :
    CellService.route_free r = .invalidArgument := by
  unfold CellService.route_free
  split <;> rw [h]

theorem route_free_local {r : CellServiceFreeRequest}
    {v : ValidatedCellServiceFreeRequest}
    (hns : r.cell_name.contains SEPARATOR = false) (hval : r.validate = some v) :
    CellService.route_free r = .handledLocally v := by
  simp [CellService.route_free, contains_false_not_mem hns, hval]

theorem route_free_forwarded {r : CellServiceFreeRequest}
    {v : ValidatedCellServiceFreeRequest} {x : CellName} {tail : CellNamePath}
    (hcontains : r.cell_name.contains SEPARATOR = true)
    (hval : r.validate = some v) (hchild : v.cell_name.into_child = some (x, tail)) :
    CellService.route_free r = .forwarded x ⟨tail.into_string⟩ := by
  simp [CellService.route_free, contains_true_mem hcontains, hval, hchild]

theorem route_start_invalid {r : CellServiceStartRequest} (h : r.validate = none) :
    CellService.route_start r = .invalidArgument := by
  unfold CellService.route_start
  split <;> rw [h]

theorem route_start_local {r : CellServiceStartRequest}
    {v : ValidatedCellServiceStartRequest}
    (hnil : r.cell_name = []) (hval : r.validate = some v) :
    CellService.route_start r = .handledLocally v := by
  simp [CellService.route_start, hnil, hval]

theorem route_start_forwarded {r : CellServiceStartRequest}
    {v : ValidatedCellServiceStartRequest} {x : CellName} {tail : CellNamePath}
    (hne : r.cell_name ≠ []) (hval : r.validate = some v)
    (hchild : v.cell_name.into_child = some (x, tail)) :
    CellService.route_start r = .forwarded x ⟨tail.into_string, r.executable⟩ := by
  simp [CellService.route_start, hne, hval, hchild]

theorem route_stop_invalid {r : CellServiceStopRequest} (h : r.validate = none) :
    CellService.route_stop r = .invalidArgument := by
  unfold CellService.route_stop
  split <;> rw [h]

theorem route_stop_local {r : CellServiceStopRequest}
    {v : ValidatedCellServiceStopRequest}
    (hnil : r.cell_name = []) (hval : r.validate = some v) :
    CellService.route_stop r = .handledLocally v := by
  simp [CellService.route_stop, hnil, hval]

theorem route_stop_forwarded {r : CellServiceStopRequest}
    {v : ValidatedCellServiceStopRequest} {x : CellName} {tail : CellNamePath}
    (hne : r.cell_name ≠ []) (hval : r.validate = some v)
    (hchild : v.cell_name.into_child = some (x, tail)) :
    CellService.route_stop r = .forwarded x ⟨tail.into_string, r.executable_name⟩ := by
  simp [CellService.route_stop, hne, hval, hchild]

/-- Counterexample for claim C4: the free request for path "a//b" contains the
separator, yet the router neither handles it locally nor forwards it; the
nested branch rejects it with a validation error. -/
theorem claim_C4_cex :
    ((['a', '/', '/', 'b'] : List Char).contains SEPARATOR = true) ∧
    CellService.route_free ⟨['a', '/', '/', 'b']⟩ = .invalidArgument := by
  exact ⟨by decide, by decide⟩

/-- Claim C4 (amended): the router takes the local branch for Allocate/Free
iff the cell path contains no separator, and for Start/Stop iff the cell name
is empty; a request in the other branch is forwarded provided it passes
validation, while any request failing validation is rejected with an
invalid-argument error without local handling or forwarding. -/
theorem claim_C4_routing :
    (∀ r : CellServiceAllocateRequest,
      (r.validate = none → CellService.route_allocate r = .invalidArgument) ∧
      (∀ v c, r.validate = some v → r.cell = some c →
        (c.name.contains SEPARATOR = false →
          CellService.route_allocate r = .handledLocally v) ∧
        (c.name.contains SEPARATOR = true →
          ∃ p o, CellService.route_allocate r = .forwarded p o))) ∧
    (∀ r : CellServiceFreeRequest,
      (r.validate = none → CellService.route_free r = .invalidArgument) ∧
      (∀ v, r.validate = some v →
        (r.cell_name.contains SEPARATOR = false →
          CellService.route_free r = .handledLocally v) ∧
        (r.cell_name.contains SEPARATOR = true →
          ∃ p o, CellService.route_free r = .forwarded p o))) ∧
    (∀ r : CellServiceStartRequest,
      (r.validate = none → CellService.route_start r = .invalidArgument) ∧
      (∀ v, r.validate = some v →
        (r.cell_name = [] → CellService.route_start r = .handledLocally v) ∧
        (r.cell_name ≠ [] → ∃ p o, CellService.route_start r = .forwarded p o))) ∧
    (∀ r : CellServiceStopRequest,
      (r.validate = none → CellService.route_stop r = .invalidArgument) ∧
      (∀ v, r.validate = some v →
        (r.cell_name = [] → CellService.route_stop r = .handledLocally v) ∧
        (r.cell_name ≠ [] → ∃ p o, CellService.route_stop r = .forwarded p o))) := by
  refine ⟨fun r => ⟨route_allocate_invalid, fun v c hval hc => ?_⟩,
    fun r => ⟨route_free_invalid, fun v hval => ?_⟩,
    fun r => ⟨route_start_invalid, fun v hval => ?_⟩,
    fun r => ⟨route_stop_invalid, fun v hval => ?_⟩⟩
  · refine ⟨fun hns => route_allocate_local hc hns hval, fun hcontains => ?_⟩
    obtain ⟨c2, hc2, hvc⟩ := allocate_validate_cell hval
    rw [hc] at hc2
    have hcc : c2 = c := (Option.some.inj hc2).symm
    rw [hcc] at hvc
    obtain ⟨hval2, hne⟩ := validateCell_name hvc
    obtain ⟨x, tail, hchild⟩ := into_child_total hval2 hne
    exact ⟨x, _, route_allocate_forwarded hc hcontains hval hchild⟩
  · refine ⟨fun hns => route_free_local hns hval, fun hcontains => ?_⟩
    obtain ⟨hval2, hne⟩ := free_validate_name hval
    obtain ⟨x, tail, hchild⟩ := into_child_total hval2 hne
    exact ⟨x, _, route_free_forwarded hcontains hval hchild⟩
  · refine ⟨fun hnil => route_start_local hnil hval, fun hne => ?_⟩
    have hval2 := start_validate_name hval
    have hnee := validate_ne_empty hne hval2
    obtain ⟨x, tail, hchild⟩ := into_child_total hval2 hnee
    exact ⟨x, _, route_start_forwarded hne hval hchild⟩
  · refine ⟨fun hnil => route_stop_local hnil hval, fun hne => ?_⟩
    have hval2 := stop_validate_name hval
    have hnee := validate_ne_empty hne hval2
    obtain ⟨x, tail, hchild⟩ := into_child_total hval2 hnee
    exact ⟨x, _, route_stop_forwarded hne hval hchild⟩

/-- Witness for the amended claim C4 at concrete inputs: the free request for
"a" is handled locally, and the free request for "a/b" is forwarded. -/
theorem claim_C4_witness :
    (CellServiceFreeRequest.validate ⟨['a']⟩ = some ⟨.Path [['a']]⟩) ∧
    ((['a'] : List Char).contains SEPARATOR = false) ∧
    CellService.route_free ⟨['a']⟩ = .handledLocally ⟨.Path [['a']]⟩ ∧
    (CellServiceFreeRequest.validate ⟨['a', '/', 'b']⟩ =
      some ⟨.Path [['a'], ['b']]⟩) ∧
    ((['a', '/', 'b'] : List Char).contains SEPARATOR = true) ∧
    ∃ p o, CellService.route_free ⟨['a', '/', 'b']⟩ = .forwarded p o := by
  refine ⟨by decide, by decide, ?_, by decide, by decide, ?_⟩
  · exact ((claim_C4_routing.2.1 ⟨['a']⟩).2 ⟨.Path [['a']]⟩ (by decide)).1 (by decide)
  · exact ((claim_C4_routing.2.1 ⟨['a', '/', 'b']⟩).2 ⟨.Path [['a'], ['b']]⟩
      (by decide)).2 (by decide)

/-- Claim C5: a nested dispatch forwards the inbound request with its cell
path rewritten to the tail of the validated path (the head segment stripped)
and every other field unchanged, and `do_in_cell` obtains the client
configuration from the registry via `Cells::get` with `Cell::client_config`. -/
theorem claim_C5_nested_rewrite :
    (∀ (r : CellServiceAllocateRequest) (c : WireCell)
        (v : ValidatedCellServiceAllocateRequest) (x : CellName) (tail : CellNamePath),
      r.cell = some c → r.validate = some v →
      v.cell.name.into_child = some (x, tail) → tail ≠ .Empty →
      CellService.route_allocate r =
        .forwarded x ⟨some { c with name := tail.into_string }⟩) ∧
    (∀ (r : CellServiceFreeRequest) (v : ValidatedCellServiceFreeRequest)
        (x : CellName) (tail : CellNamePath),
      r.validate = some v → v.cell_name.into_child = some (x, tail) → tail ≠ .Empty →
      CellService.route_free r = .forwarded x ⟨tail.into_string⟩) ∧
    (∀ (r : CellServiceStartRequest) (v : ValidatedCellServiceStartRequest)
        (x : CellName) (tail : CellNamePath),
      r.validate = some v → v.cell_name.into_child = some (x, tail) → tail ≠ .Empty →
      CellService.route_start r = .forwarded x ⟨tail.into_string, r.executable⟩) ∧
    (∀ (r : CellServiceStopRequest) (v : ValidatedCellServiceStopRequest)
        (x : CellName) (tail : CellNamePath),
      r.validate = some v → v.cell_name.into_child = some (x, tail) → tail ≠ .Empty →
      CellService.route_stop r = .forwarded x ⟨tail.into_string, r.executable_name⟩) ∧
    (∀ (σ : Type) (ext : FsExists) (env : NestedEnv σ) (cells : Cells)
        (x : CellName) (e : CellsError),
      (Cells.get ext cells x Cell.client_config).1 = .error e →
      (do_in_cell ext env cells x).result = .cellsError e ∧
      (do_in_cell ext env cells x).cells = (Cells.get ext cells x Cell.client_config).2) := by
  have hmulti : ∀ {s : List Char} {p : CellNamePath} {x : CellName} {tail : CellNamePath},
      CellNamePath.validate s = some p → p.into_child = some (x, tail) →
      tail ≠ .Empty → s.contains SEPARATOR = true := by
    intro s p x tail hval hchild htail
    cases hp : p with
    | Empty => rw [hp] at hchild; exact Option.noConfusion hchild
    | Path segs =>
      rw [hp] at hval hchild
      cases segs with
      | nil => exact Option.noConfusion hchild
      | cons y ys =>
        rw [into_child_cons] at hchild
        have h2 := Option.some.inj hchild
        have htail2 : tail = if ys = [] then CellNamePath.Empty else .Path ys :=
          (Prod.ext_iff.mp h2).2.symm
        have hys : ys ≠ [] := by
          intro hnil
          rw [hnil] at htail2
          simp at htail2
          exact htail htail2
        refine contains_sep_of_multi hval ?_
        cases ys with
        | nil => exact absurd rfl hys
        | cons z zs => simp [List.length_cons]
  refine ⟨fun r c v x tail hc hval hchild htail => ?_,
    fun r v x tail hval hchild htail => ?_,
    fun r v x tail hval hchild htail => ?_,
    fun r v x tail hval hchild htail => ?_,
    fun σ ext env cells x e hget => ?_⟩
  · obtain ⟨c2, hc2, hvc⟩ := allocate_validate_cell hval
    rw [hc] at hc2
    have hcc : c2 = c := (Option.some.inj hc2).symm
    rw [hcc] at hvc
    obtain ⟨hval2, -⟩ := validateCell_name hvc
    exact route_allocate_forwarded hc (hmulti hval2 hchild htail) hval hchild
  · obtain ⟨hval2, -⟩ := free_validate_name hval
    exact route_free_forwarded (hmulti hval2 hchild htail) hval hchild
  · have hval2 := start_validate_name hval
    have hne : r.cell_name ≠ [] := by
      intro hnil
      rw [hnil] at hval2
      have hp := (Option.some.inj hval2).symm
      rw [hp] at hchild
      exact Option.noConfusion hchild
    exact route_start_forwarded hne hval hchild
  · have hval2 := stop_validate_name hval
    have hne : r.cell_name ≠ [] := by
      intro hnil
      rw [hnil] at hval2
      have hp := (Option.some.inj hval2).symm
      rw [hp] at hchild
      exact Option.noConfusion hchild
    exact route_stop_forwarded hne hval hchild
  · cases hp : Cells.get ext cells x Cell.client_config with
    | mk r1 cells1 =>
      rw [hp] at hget
      have h1 : r1 = .error e := hget
      subst h1
      constructor
      · simp only [do_in_cell, hp]
      · simp only [do_in_cell, hp]

/-- Witness for claim C5 at a concrete input: the free request for "a/b" is
forwarded to "a" carrying the tail "b", and a failing registry lookup
propagates out of `do_in_cell`. -/
theorem claim_C5_witness :
    (CellServiceFreeRequest.validate ⟨['a', '/', 'b']⟩ =
      some ⟨.Path [['a'], ['b']]⟩) ∧
    ((CellNamePath.Path [['a'], ['b']]).into_child =
      some (['a'], .Path [['b']])) ∧
    (CellNamePath.Path [['b']] ≠ .Empty) ∧
    CellService.route_free ⟨['a', '/', 'b']⟩ =
      .forwarded ['a'] ⟨(CellNamePath.Path [['b']]).into_string⟩ ∧
    ((Cells.get (fun _ => false) ⟨[]⟩ ['a'] Cell.client_config).1 =
      .error (.CellNotFound ['a'])) ∧
    (do_in_cell (fun _ => false) envAllOk ⟨[]⟩ ['a']).result =
      .cellsError (.CellNotFound ['a']) := by
  refine ⟨by decide, by decide, by decide, ?_, by decide, ?_⟩
  · exact claim_C5_nested_rewrite.2.1 ⟨['a', '/', 'b']⟩ ⟨.Path [['a'], ['b']]⟩
      ['a'] (.Path [['b']]) (by decide) (by decide) (by decide)
  · exact (claim_C5_nested_rewrite.2.2.2.2 Unit (fun _ => false) envAllOk ⟨[]⟩
      ['a'] (.CellNotFound ['a']) (by decide)).1

/-- Claim C10: for locally dispatched requests, successful validation makes
the panicking checks of the local handlers unreachable: for Allocate/Free the
validated single-segment path's `into_child` succeeds with an empty tail, and
for Start/Stop the validated path is the empty path. -/
theorem claim_C10_local_no_panic :
    (∀ (r : CellServiceAllocateRequest) (c : WireCell)
        (v : ValidatedCellServiceAllocateRequest),
      r.cell = some c → c.name.contains SEPARATOR = false → r.validate = some v →
      v.cell.name.into_child = some (c.name, .Empty)) ∧
    (∀ (r : CellServiceFreeRequest) (v : ValidatedCellServiceFreeRequest),
      r.cell_name.contains SEPARATOR = false → r.validate = some v →
      v.cell_name.into_child = some (r.cell_name, .Empty)) ∧
    (∀ (r : CellServiceStartRequest) (v : ValidatedCellServiceStartRequest),
      r.cell_name = [] → r.validate = some v → v.cell_name = .Empty) ∧
    (∀ (r : CellServiceStopRequest) (v : ValidatedCellServiceStopRequest),
      r.cell_name = [] → r.validate = some v → v.cell_name = .Empty) := by
  refine ⟨fun r c v hc hns hval => ?_, fun r v hns hval => ?_,
    fun r v hnil hval => ?_, fun r v hnil hval => ?_⟩
  · obtain ⟨c2, hc2, hvc⟩ := allocate_validate_cell hval
    rw [hc] at hc2
    have hcc : c2 = c := (Option.some.inj hc2).symm
    rw [hcc] at hvc
    obtain ⟨hval2, hne⟩ := validateCell_name hvc
    have hs : c.name ≠ [] := validate_nonempty_of_ne_empty hval2 hne
    have hp := validate_single hs hns hval2
    rw [hp]
    rfl
  · obtain ⟨hval2, hne⟩ := free_validate_name hval
    have hs : r.cell_name ≠ [] := validate_nonempty_of_ne_empty hval2 hne
    have hp := validate_single hs hns hval2
    rw [hp]
    rfl
  · have hval2 := start_validate_name hval
    rw [hnil] at hval2
    exact (Option.some.inj hval2).symm
  · have hval2 := stop_validate_name hval
    rw [hnil] at hval2
    exact (Option.some.inj hval2).symm

/-- Witness for claim C10 at concrete inputs. -/
theorem claim_C10_witness :
    (CellServiceAllocateRequest.validate ⟨some ⟨['a'], none, none, false, false⟩⟩ =
      some ⟨⟨.Path [['a']], none, none, false, false⟩⟩) ∧
    ((CellNamePath.Path [['a']]).into_child = some (['a'], .Empty)) ∧
    (CellServiceStartRequest.validate ⟨[], some ⟨['x'], ['y'], []⟩⟩ =
      some ⟨.Empty, ⟨['x'], ['y'], []⟩⟩) ∧
    ((⟨.Empty, ⟨['x'], ['y'], []⟩⟩ : ValidatedCellServiceStartRequest).cell_name =
      .Empty) := by
  refine ⟨by decide, ?_, by decide, ?_⟩
  · exact claim_C10_local_no_panic.1 ⟨some ⟨['a'], none, none, false, false⟩⟩
      ⟨['a'], none, none, false, false⟩ ⟨⟨.Path [['a']], none, none, false, false⟩⟩
      (by decide) (by decide) (by decide)
  · exact claim_C10_local_no_panic.2.2.1 ⟨[], some ⟨['x'], ['y'], []⟩⟩
      ⟨.Empty, ⟨['x'], ['y'], []⟩⟩ (by decide) (by decide)

theorem backoffStep_some {b : BackoffState} {r d : Nat} {b1 : BackoffState}
    (h : backoffStep b r = some (d, b1)) :
    b1.elapsedMs = b.elapsedMs + d ∧ b.elapsedMs + d ≤ maxElapsedMs ∧ 25 ≤ d := by
  unfold backoffStep at h
  split at h
  · rename_i hle
    have hd25 : 25 ≤ backoffDelay b r := by
      unfold backoffDelay
      have hlb : initialIntervalMs ≤ b.currentInterval := b.interval_lb
      have h50 : 50 ≤ b.currentInterval := hlb
      have hdiv : 25 ≤ b.currentInterval / 2 :=
        (Nat.le_div_iff_mul_le (by norm_num)).mpr (by omega)
      exact le_trans hdiv (Nat.le_add_right _ _)
    have h2 := Option.some.inj h
    injection h2 with hd hb1
    subst hd
    subst hb1
    exact ⟨rfl, hle, hd25⟩
  · exact Option.noConfusion h

theorem dialLoop_bound (dials : Nat → DialResult) (rands : Nat → Nat) :
    ∀ (fuel : Nat) (s : DialState),
      s.sleptMs ≤ s.backoff.elapsedMs → s.backoff.elapsedMs ≤ maxElapsedMs →
      maxElapsedMs < s.backoff.elapsedMs + 25 * fuel →
      (dialLoop dials rands fuel s).isOutOfFuel = false ∧
      (dialLoop dials rands fuel s).state.sleptMs ≤
        (dialLoop dials rands fuel s).state.backoff.elapsedMs ∧
      (dialLoop dials rands fuel s).state.backoff.elapsedMs ≤ maxElapsedMs := by
  intro fuel
  induction fuel with
  | zero =>
    intro s h1 h2 h3
    exfalso
    omega
  | succ m ih =>
    intro s h1 h2 h3
    simp only [dialLoop]
    cases hd : dials s.attempt with
    | ok => exact ⟨rfl, h1, h2⟩
    | otherError => exact ⟨rfl, h1, h2⟩
    | connectionError =>
      cases hb : backoffStep s.backoff (rands s.attempt) with
      | none => exact ⟨rfl, h1, h2⟩
      | some pair =>
        obtain ⟨d, b1⟩ := pair
        obtain ⟨he, hle, hd25⟩ := backoffStep_some hb
        refine ih ⟨b1, s.attempt + 1, s.sleptMs + d⟩ ?_ ?_ ?_
        · simp only [he]
          omega
        · simp only [he]
          exact hle
        · simp only [he]
          omega

theorem rpcRetry_bound {σ : Type} (calls : Nat → RpcAttemptResult σ) (rands : Nat → Nat) :
    ∀ (fuel : Nat) (s : RetryState),
      s.sleptMs ≤ s.backoff.elapsedMs → s.backoff.elapsedMs ≤ maxElapsedMs →
      maxElapsedMs < s.backoff.elapsedMs + 25 * fuel →
      (rpcRetry calls rands fuel s).isOutOfFuel = false ∧
      (rpcRetry calls rands fuel s).state.sleptMs ≤
        (rpcRetry calls rands fuel s).state.backoff.elapsedMs ∧
      (rpcRetry calls rands fuel s).state.backoff.elapsedMs ≤ maxElapsedMs := by
  intro fuel
  induction fuel with
  | zero =>
    intro s h1 h2 h3
    exfalso
    omega
  | succ m ih =>
    intro s h1 h2 h3
    simp only [rpcRetry]
    cases hc : calls s.attempt with
    | ok v => exact ⟨rfl, h1, h2⟩
    | err e =>
      dsimp only
      by_cases htr : e.code = RpcCode.unknown ∧ e.message = transportErrorMessage
      · rw [if_pos htr]
        cases hb : backoffStep s.backoff (rands s.attempt) with
        | none => exact ⟨rfl, h1, h2⟩
        | some pair =>
          obtain ⟨d, b1⟩ := pair
          obtain ⟨he, hle, hd25⟩ := backoffStep_some hb
          exact ih ⟨b1, s.attempt + 1, s.sleptMs + d⟩
            (by simp only [he]; omega)
            (by simp only [he]; exact hle)
            (by simp only [he]; omega)
      · rw [if_neg htr]
        exact ⟨rfl, h1, h2⟩

/-- Claim C7: during nested dispatch a dial failure is retried only when it is
a `ConnectionError` (a successful dial connects, any other dial error is
returned immediately), and an RPC response error is retried only when its code
is `Unknown` with message "transport error"; every other RPC error is
permanent and returned to the caller unchanged. -/
theorem claim_C7_retry_classification :
    (∀ (dials : Nat → DialResult) (rands : Nat → Nat) (fuel : Nat) (s : DialState),
      dials s.attempt = .ok →
      dialLoop dials rands (fuel + 1) s = .connected s) ∧
    (∀ (dials : Nat → DialResult) (rands : Nat → Nat) (fuel : Nat) (s : DialState),
      dials s.attempt = .otherError →
      dialLoop dials rands (fuel + 1) s = .fatalError s) ∧
    (∀ (dials : Nat → DialResult) (rands : Nat → Nat) (fuel : Nat) (s : DialState)
        (d : Nat) (b1 : BackoffState),
      dials s.attempt = .connectionError →
      backoffStep s.backoff (rands s.attempt) = some (d, b1) →
      dialLoop dials rands (fuel + 1) s =
        dialLoop dials rands fuel ⟨b1, s.attempt + 1, s.sleptMs + d⟩) ∧
    (∀ (σ : Type) (calls : Nat → RpcAttemptResult σ) (rands : Nat → Nat)
        (fuel : Nat) (s : RetryState) (e : RpcError),
      calls s.attempt = .err e →
      ¬(e.code = RpcCode.unknown ∧ e.message = transportErrorMessage) →
      rpcRetry calls rands (fuel + 1) s = .permanentError e s) ∧
    (∀ (σ : Type) (calls : Nat → RpcAttemptResult σ) (rands : Nat → Nat)
        (fuel : Nat) (s : RetryState) (e : RpcError) (d : Nat) (b1 : BackoffState),
      calls s.attempt = .err e →
      e.code = RpcCode.unknown → e.message = transportErrorMessage →
      backoffStep s.backoff (rands s.attempt) = some (d, b1) →
      rpcRetry calls rands (fuel + 1) s =
        rpcRetry calls rands fuel ⟨b1, s.attempt + 1, s.sleptMs + d⟩) := by
  refine ⟨fun dials rands fuel s hd => ?_, fun dials rands fuel s hd => ?_,
    fun dials rands fuel s d b1 hd hb => ?_,
    fun σ calls rands fuel s e hc hne => ?_,
    fun σ calls rands fuel s e d b1 hc hcode hmsg hb => ?_⟩
  · simp only [dialLoop, hd]
  · simp only [dialLoop, hd]
  · simp only [dialLoop, hd, hb]
  · simp only [rpcRetry, hc]
    rw [if_neg hne]
  · simp only [rpcRetry, hc]
    rw [if_pos ⟨hcode, hmsg⟩, hb]

/-- Witness for claim C7 at concrete inputs. -/
theorem claim_C7_witness :
    ((fun (_ : Nat) => DialResult.otherError) 0 = DialResult.otherError) ∧
    dialLoop (fun _ => .otherError) (fun _ => 0) 5 ⟨backoffInit, 0, 0⟩ =
      .fatalError ⟨backoffInit, 0, 0⟩ ∧
    dialLoop (fun _ => .connectionError) (fun _ => 0) 5 ⟨backoffInit, 0, 0⟩ =
      dialLoop (fun _ => .connectionError) (fun _ => 0) 4
        ⟨⟨500, 25, by decide⟩, 1, 25⟩ ∧
    rpcRetry (fun _ => .err ⟨.notFound, []⟩) (fun _ => 0) 5
        (⟨backoffInit, 0, 0⟩ : RetryState) =
      .permanentError (σ := Unit) ⟨.notFound, []⟩ ⟨backoffInit, 0, 0⟩ ∧
    rpcRetry (fun _ => .err ⟨.unknown, transportErrorMessage⟩) (fun _ => 0) 5
        (⟨backoffInit, 0, 0⟩ : RetryState) =
      rpcRetry (σ := Unit) (fun _ => .err ⟨.unknown, transportErrorMessage⟩)
        (fun _ => 0) 4 ⟨⟨500, 25, by decide⟩, 1, 25⟩ := by
  refine ⟨rfl, ?_, ?_, ?_, ?_⟩
  · exact claim_C7_retry_classification.2.1 (fun _ => .otherError) (fun _ => 0) 4
      ⟨backoffInit, 0, 0⟩ rfl
  · exact claim_C7_retry_classification.2.2.1 (fun _ => .connectionError) (fun _ => 0) 4
      ⟨backoffInit, 0, 0⟩ 25 ⟨500, 25, by decide⟩ rfl rfl
  · exact claim_C7_retry_classification.2.2.2.1 Unit (fun _ => .err ⟨.notFound, []⟩)
      (fun _ => 0) 4 ⟨backoffInit, 0, 0⟩ ⟨.notFound, []⟩ rfl (by decide)
  · exact claim_C7_retry_classification.2.2.2.2 Unit
      (fun _ => .err ⟨.unknown, transportErrorMessage⟩) (fun _ => 0) 4
      ⟨backoffInit, 0, 0⟩ ⟨.unknown, transportErrorMessage⟩ 25 ⟨500, 25, by decide⟩
      rfl rfl rfl rfl

/-- Claim C8: the nested-dispatch retry machinery always terminates (the fuel
marker is unreachable) and the total time slept in backoff, across the dial
loop and the forwarded-RPC retry which share one budget, never exceeds the
20 s maximum elapsed time, for any streams of failures and randomisation. -/
theorem claim_C8_backoff_budget (σ : Type) (ext : FsExists) (env : NestedEnv σ)
    (cells : Cells) (n : CellName) :
    (do_in_cell ext env cells n).sleptMs ≤ maxElapsedMs ∧
    (do_in_cell ext env cells n).result ≠ .outOfFuel := by
  unfold do_in_cell
  cases hg : Cells.get ext cells n Cell.client_config with
  | mk r1 cells1 =>
    cases r1 with
    | error e =>
      dsimp only
      exact ⟨by decide, fun h => NestedResult.noConfusion h⟩
    | ok cfg =>
      dsimp only
      have hdial := dialLoop_bound env.dials env.dialRands dialFuel
        ⟨backoffInit, 0, 0⟩ (Nat.le_refl 0) (by decide) (by decide)
      cases hdl : dialLoop env.dials env.dialRands dialFuel ⟨backoffInit, 0, 0⟩ with
      | outOfFuel s =>
        rw [hdl] at hdial
        simp [DialOutcome.isOutOfFuel] at hdial
      | fatalError s =>
        rw [hdl] at hdial
        simp only [DialOutcome.state] at hdial
        exact ⟨le_trans hdial.2.1 hdial.2.2, fun h => NestedResult.noConfusion h⟩
      | budgetExhausted s =>
        rw [hdl] at hdial
        simp only [DialOutcome.state] at hdial
        exact ⟨le_trans hdial.2.1 hdial.2.2, fun h => NestedResult.noConfusion h⟩
      | connected s =>
        rw [hdl] at hdial
        simp only [DialOutcome.state] at hdial
        dsimp only
        have hrpc := rpcRetry_bound env.calls env.rpcRands dialFuel
          ⟨s.backoff, 0, s.sleptMs⟩ hdial.2.1 hdial.2.2
          (lt_of_lt_of_le (by decide) (Nat.le_add_left _ _))
        cases hr : rpcRetry env.calls env.rpcRands dialFuel ⟨s.backoff, 0, s.sleptMs⟩ with
        | outOfFuel s1 =>
          rw [hr] at hrpc
          simp [RpcOutcome.isOutOfFuel] at hrpc
        | success v s1 =>
          rw [hr] at hrpc
          simp only [RpcOutcome.state] at hrpc
          exact ⟨le_trans hrpc.2.1 hrpc.2.2, fun h => NestedResult.noConfusion h⟩
        | permanentError e s1 =>
          rw [hr] at hrpc
          simp only [RpcOutcome.state] at hrpc
          exact ⟨le_trans hrpc.2.1 hrpc.2.2, fun h => NestedResult.noConfusion h⟩
        | budgetExhausted e s1 =>
          rw [hr] at hrpc
          simp only [RpcOutcome.state] at hrpc
          exact ⟨le_trans hrpc.2.1 hrpc.2.2, fun h => NestedResult.noConfusion h⟩

theorem dialTrace_all_work (dials : Nat → DialResult) (rands : Nat → Nat) :
    ∀ (fuel : Nat) (s : DialState),
      (dialTrace dials rands fuel s).all isNestedWorkEvent = true := by
  intro fuel
  induction fuel with
  | zero => intro s; rfl
  | succ m ih =>
    intro s
    simp only [dialTrace]
    cases dials s.attempt with
    | ok => rfl
    | otherError => rfl
    | connectionError =>
      cases backoffStep s.backoff (rands s.attempt) with
      | none => rfl
      | some pair =>
        obtain ⟨d, b1⟩ := pair
        simp [List.all_cons, isNestedWorkEvent, ih]

theorem rpcTrace_all_work {σ : Type} (calls : Nat → RpcAttemptResult σ)
    (rands : Nat → Nat) :
    ∀ (fuel : Nat) (s : RetryState),
      (rpcTrace calls rands fuel s).all isNestedWorkEvent = true := by
  intro fuel
  induction fuel with
  | zero => intro s; rfl
  | succ m ih =>
    intro s
    simp only [rpcTrace]
    cases calls s.attempt with
    | ok v => rfl
    | err e =>
      dsimp only
      by_cases htr : e.code = RpcCode.unknown ∧ e.message = transportErrorMessage
      · rw [if_pos htr]
        cases backoffStep s.backoff (rands s.attempt) with
        | none => rfl
        | some pair =>
          obtain ⟨d, b1⟩ := pair
          simp [List.all_cons, isNestedWorkEvent, ih]
      · rw [if_neg htr]
        rfl

theorem nested_work_trace_all {σ : Type} (ext : FsExists) (env : NestedEnv σ)
    (cells : Cells) (n : CellName) :
    (nested_work_trace ext env cells n).all isNestedWorkEvent = true := by
  unfold nested_work_trace
  cases hg : Cells.get ext cells n Cell.client_config with
  | mk r1 cells1 =>
    cases r1 with
    | error e => rfl
    | ok cfg =>
      dsimp only
      rw [List.all_append]
      rw [dialTrace_all_work]
      rw [Bool.true_and]
      cases dialLoop env.dials env.dialRands dialFuel ⟨backoffInit, 0, 0⟩ with
      | connected s => exact rpcTrace_all_work env.calls env.rpcRands dialFuel _
      | fatalError s => rfl
      | budgetExhausted s => rfl
      | outOfFuel s => rfl

/-- Counterexample for claim C9: in a dispatch where the registry lookup, the
dial and the forwarded RPC all succeed, no release of the registry mutex
precedes the dial attempt or the RPC attempt; the guard is dropped only at the
end of the block, so the mutex is held across the dial and the RPC. -/
theorem claim_C9_cex :
    lockReleasedBeforeNestedWork
      (do_in_cell_trace (fun _ => true) envAllOk ⟨[(['a'], cellAlpha)]⟩ ['a']) = false := by
  decide

/-- Claim C9 (amended): the `do_in_cell` macro acquires the registry mutex at
entry, reads `client_config` under it, and releases it only at the end of its
block; every dial attempt, backoff sleep and forwarded RPC attempt happens
strictly between the lock and the single final unlock. -/
theorem claim_C9_lock_scope (σ : Type) (ext : FsExists) (env : NestedEnv σ)
    (cells : Cells) (n : CellName) :
    do_in_cell_trace ext env cells n =
      [Event.lockRegistry, Event.readConfig] ++ nested_work_trace ext env cells n ++
        [Event.unlockRegistry] ∧
    (nested_work_trace ext env cells n).all isNestedWorkEvent = true ∧
    (lockReleasedBeforeNestedWork (do_in_cell_trace ext env cells n) = true ↔
      nested_work_trace ext env cells n = []) := by
  have hall := nested_work_trace_all ext env cells n
  refine ⟨rfl, hall, ?_⟩
  cases hmid : nested_work_trace ext env cells n with
  | nil =>
    simp [do_in_cell_trace, hmid, lockReleasedBeforeNestedWork, isNestedWorkEvent]
  | cons e rest =>
    rw [hmid] at hall
    rw [List.all_cons] at hall
    have he : isNestedWorkEvent e = true := by
      cases hb : isNestedWorkEvent e with
      | true => rfl
      | false =>
        rw [hb] at hall
        simp at hall
    cases e <;>
      simp_all [do_in_cell_trace, lockReleasedBeforeNestedWork, isNestedWorkEvent]

end Aurae
